import Mathlib

/-!
Verification of the tom-select core (dist/js/tom-select.complete.js):
the bundled Sifter search engine (tokenize → score → sort → limit) and the
TomSelect selection state machine (items, caret, option registry, caches).

Modelling conventions:
* JS objects used as ordered string-keyed maps (the option corpus, records)
  are insertion-ordered association lists; `for (key in obj)` iteration of
  such maps visits keys in insertion order, which the lists preserve.
* Record field values are strings (the scorer stringifies values anyway via
  `String(value || '')`; the JS falsy check `!value` on a string is `= ""`,
  and an absent field is `Option.none`).
* Scores are exact rationals standing for the JS floating-point arithmetic
  `tokenLength / valueLength + 0.5`.
* Regular expressions never escape this model: `tokenize` escapes every
  metacharacter (`escape_regex`), so a compiled token pattern matches
  exactly the literal token text, case-insensitively.  The model fixes the
  `diacritics` setting to `false` (for ASCII text the diacritic
  class-expansion table rewrites the pattern to itself), so matching is
  case-insensitive literal substring search.
* DOM reads/writes, rendering, the render cache, dropdown open/close state
  and focus handling have no bearing on the modelled fields and are elided;
  where a DOM helper also mutates a modelled field (e.g. `insertAtCaret`
  calling `setCaret`, `refreshOptions` re-running `search` and thereby
  storing `lastQuery`) that mutation is modelled.
-/

namespace TomSelectSpec

/-! ### JS string primitives used by sifter.js -/

/-- The whitespace characters recognised by the `\s` class in `trim`'s regex
(the model covers the ASCII ones; all inputs in this development are ASCII). -/
def isJsSpace (c : Char) : Bool :=
  c == ' ' || c == '\t' || c == '\n' || c == '\r' || c == '\x0b' || c == '\x0c'

/-- JS `String.prototype.toLowerCase()` on the model's ASCII text:
per-character lowercasing. -/
def jsToLower (s : String) : String :=
  ⟨s.data.map Char.toLower⟩

/-- `trim` from sifter.js: `(str + '').replace(/^\s+|\s+$|/g, '')` — strips
leading and trailing whitespace. -/
def jsTrim (s : String) : String :=
  ⟨((s.data.dropWhile isJsSpace).reverse.dropWhile isJsSpace).reverse⟩

mutual
/-- JS `str.split(/ +/)` semantics, accumulating the current chunk (reversed).
Splits at each maximal run of one or more space characters; a leading or
trailing run contributes an empty chunk, exactly as in JS. -/
def splitRunsAux : List Char → List Char → List String
  | [], cur => [⟨cur.reverse⟩]
  | c :: rest, cur =>
    if c = ' ' then ⟨cur.reverse⟩ :: splitRunsGap rest
    else splitRunsAux rest (c :: cur)

/-- Consumes the remainder of a separator run for `splitRunsAux`. -/
def splitRunsGap : List Char → List String
  | [] => [""]
  | c :: rest =>
    if c = ' ' then splitRunsGap rest
    else splitRunsAux rest [c]
end

/-- JS `str.split(/ +/)`. -/
def splitSpaceRuns (s : String) : List String :=
  splitRunsAux s.data []

/-! ### Sifter: tokenizer -/

/-- A search token: the normalized (lowercased) word.  The compiled
case-insensitive regex made from it (with metacharacters escaped) is
modelled by `regexSearch` below. -/
structure SifterToken where
  string : String
deriving Repr, DecidableEq

/-- `Sifter.prototype.tokenize`: lowercase, trim, return no tokens for an
empty result, otherwise split on `/ +/` and build one token per word. -/
def tokenize (query : String) : List SifterToken :=
  let q := jsTrim (jsToLower query)
  if q = "" then []
  else (splitSpaceRuns q).map (fun w => { string := w })

/-- Does `pat` occur at the head of `text`? (both already lowercased) -/
def matchesAt : List Char → List Char → Bool
  | [], _ => true
  | _ :: _, [] => false
  | p :: ps, t :: ts => p == t && matchesAt ps ts

/-- First match position of `pat` in `text`, if any. -/
def searchAux (pat : List Char) : List Char → Option Nat
  | [] => if pat.isEmpty then some 0 else none
  | c :: rest =>
    if matchesAt pat (c :: rest) then some 0
    else (searchAux pat rest).map (· + 1)

/-- Model of `value.search(token.regex)`: the token's pattern is the
escaped literal token text compiled with the `i` flag, so this is
case-insensitive literal substring search (`none` for JS `-1`).
`token.string` is already lowercase; ASCII lowercasing is position-preserving,
so the returned index agrees with the index in the original value. -/
def regexSearch (tok : SifterToken) (value : String) : Option Nat :=
  searchAux tok.string.data (jsToLower value).data

/-! ### Sifter: scorer -/

/-- A record: field name → string value, insertion ordered. -/
def RecData := List (String × String)
deriving DecidableEq, Repr

/-- `getattr(obj, name, nesting)`: plain property read, or dot-path
traversal when `nesting` is set.  Records are flat string maps, so a dotted
path of length ≥ 2 indexes into a string value and yields `undefined`. -/
def getattr (obj : RecData) (name : String) (nesting : Bool) : Option String :=
  if name = "" then none
  else if !nesting then List.lookup name obj
  else match name.splitOn "." with
    | [n] => List.lookup n obj
    | _ => none

/-- `scoreValue(value, token)` from `getScoreFunction`: 0 when the value is
absent/falsy or the pattern does not occur; otherwise
`token.string.length / value.length`, plus `0.5` when the match starts at
position 0. -/
def scoreValue (value : Option String) (token : SifterToken) : ℚ :=
  match value with
  | none => 0
  | some v =>
    if v = "" then 0
    else
      match regexSearch token v with
      | none => 0
      | some pos =>
        let score : ℚ := (token.string.length : ℚ) / (v.length : ℚ)
        if pos = 0 then score + 1/2 else score

/-- A sort key as accepted by `getSortFunction` (`{field, direction}`). -/
structure SortKey where
  field : String
  direction : String
deriving Repr, DecidableEq

/-- The search options recognised by `Sifter.prototype.search`
(`prepareSearch` has already normalised scalar `fields`/`sort` to lists). -/
structure SearchOptions where
  fields : List String
  conjunction : String
  sort : Option (List SortKey)
  sort_empty : Option (List SortKey)
  nesting : Bool
  /-- `true` unless the caller passed `filter: false`. -/
  filter : Bool
  limit : Option Nat
  /-- caller-supplied scoring-function override, if any -/
  score : Option (RecData → ℚ)

/-- `scoreObject` from `getScoreFunction`: per-token record score, the mean
of the per-field scores (with the source's 0-field and 1-field fast paths). -/
def scoreObject (fields : List String) (nesting : Bool) (token : SifterToken)
    (data : RecData) : ℚ :=
  match fields with
  | [] => 0
  | [f] => scoreValue (getattr data f nesting) token
  | _ =>
    ((fields.map (fun f => scoreValue (getattr data f nesting) token)).sum)
      / (fields.length : ℚ)

/-- `Sifter.prototype.getScoreFunction` applied to a record: 0 for zero
tokens; the single token's `scoreObject` for one; under `'and'` conjunction
0 as soon as any token scores ≤ 0 (the loop's short-circuit produces the
same value), otherwise the mean of the per-token scores. -/
def getScoreFunction (tokens : List SifterToken) (opts : SearchOptions)
    (data : RecData) : ℚ :=
  match tokens with
  | [] => 0
  | [t] => scoreObject opts.fields opts.nesting t data
  | _ =>
    if opts.conjunction = "and" then
      if tokens.any (fun t => decide (scoreObject opts.fields opts.nesting t data ≤ 0))
      then 0
      else ((tokens.map (fun t => scoreObject opts.fields opts.nesting t data)).sum)
        / (tokens.length : ℚ)
    else ((tokens.map (fun t => scoreObject opts.fields opts.nesting t data)).sum)
      / (tokens.length : ℚ)

/-! ### Sifter: ranker -/

/-- A scored search hit (`{score, id}`). -/
structure ResultItem where
  id : String
  score : ℚ
deriving Repr, DecidableEq

/-- A JS value reaching `cmp`: a number (`$score`) or a record field. -/
inductive JSVal where
  | num : ℚ → JSVal
  | str : String → JSVal
  | undef : JSVal

/-- The `String(a || '')` coercion in `cmp`. -/
def jsValToStr : JSVal → String
  | .num q => if q = 0 then "" else toString q
  | .str s => s
  | .undef => ""

/-- `asciifold`: accented letters fold to their base letter and the result
is lowercased; on the ASCII text of this model that is lowercasing. -/
def asciifold (s : String) : String :=
  jsToLower s

/-- `cmp(a, b)`: numeric compare when both are numbers, otherwise
case-insensitive diacritic-folded string compare. -/
def cmp (a b : JSVal) : Int :=
  match a, b with
  | .num x, .num y => if x > y then 1 else if x < y then -1 else 0
  | x, y =>
    let a' := asciifold (jsValToStr x)
    let b' := asciifold (jsValToStr y)
    if a' > b' then 1 else if b' > a' then -1 else 0

/-- The else-branch of `getSortFunction`'s field parsing: splice out the
first `$score` entry (if any) when the query is empty. -/
def removeFirstScoreKey : List SortKey → List SortKey
  | [] => []
  | k :: rest => if k.field = "$score" then rest else k :: removeFirstScoreKey rest

/-- The sort-key list computed by `Sifter.prototype.getSortFunction`:
`sort = (!search.query && options.sort_empty) || options.sort`; keep keys
other than `$score` when the query is empty; for a non-empty query prepend
an implicit `$score desc` key unless one was named explicitly; for an empty
query splice out a remaining `$score` key. -/
def sortFieldList (query : String) (opts : SearchOptions) : List SortKey :=
  let sort := if query = "" ∧ opts.sort_empty.isSome then opts.sort_empty else opts.sort
  let fields := (sort.getD []).filter (fun k => query != "" || k.field != "$score")
  if query ≠ "" then
    if fields.all (fun k => k.field != "$score") then
      { field := "$score", direction := "desc" } :: fields
    else fields
  else
    removeFirstScoreKey fields

/-- `get_field(name, result)`: the result's score for `$score`, otherwise
the named field of the corpus record behind the result's id. -/
def getField (corpus : List (String × RecData)) (nesting : Bool) (name : String)
    (r : ResultItem) : JSVal :=
  if name = "$score" then .num r.score
  else
    match List.lookup r.id corpus with
    | none => JSVal.undef
    | some data =>
      match getattr data name nesting with
      | none => JSVal.undef
      | some v => JSVal.str v

/-- The comparator built by `getSortFunction`: first nonzero
`multiplier * cmp` over the keys in order (the source's one-key fast path
computes the same value). -/
def sortCompare (corpus : List (String × RecData)) (nesting : Bool)
    (fields : List SortKey) (a b : ResultItem) : Int :=
  match fields with
  | [] => 0
  | k :: rest =>
    let m : Int := if k.direction = "desc" then -1 else 1
    let r := m * cmp (getField corpus nesting k.field a) (getField corpus nesting k.field b)
    if r ≠ 0 then r else sortCompare corpus nesting rest a b

/-- `Sifter.prototype.getSortFunction`: `none` when no sort keys apply
(search then skips sorting), otherwise the multi-key comparator. -/
def getSortFunction (corpus : List (String × RecData)) (query : String)
    (opts : SearchOptions) : Option (ResultItem → ResultItem → Int) :=
  let fields := sortFieldList query opts
  if fields.isEmpty then none
  else some (sortCompare corpus opts.nesting fields)

/-! ### Sifter: search -/

/-- The result object of `Sifter.prototype.search`. -/
structure SearchResult where
  query : String
  tokens : List SifterToken
  total : Nat
  items : List ResultItem

/-- `Sifter.prototype.search`: `prepareSearch` lowercases (but does not
trim) the query; a non-empty query scores every record and keeps those with
positive score (all of them under `filter: false`); an empty query includes
every record with score 1; results are sorted when a comparator applies
(JS stable sort, modelled by `mergeSort` on `comparator ≤ 0`); `total` is
the pre-truncation count and `limit` truncates the item list. -/
def sifterSearch (corpus : List (String × RecData)) (query : String)
    (opts : SearchOptions) : SearchResult :=
  let q := jsToLower query
  let tokens := tokenize query
  let fnScore : RecData → ℚ :=
    match opts.score with
    | some f => f
    | none => getScoreFunction tokens opts
  let base : List ResultItem :=
    if q ≠ "" then
      corpus.filterMap (fun p =>
        let sc := fnScore p.2
        if !opts.filter || decide (sc > 0) then some { id := p.1, score := sc }
        else none)
    else corpus.map (fun p => { id := p.1, score := 1 })
  let sorted :=
    match getSortFunction corpus q opts with
    | none => base
    | some c => base.mergeSort (fun a b => c a b ≤ 0)
  { query := q
    tokens := tokens
    total := sorted.length
    items := match opts.limit with | some l => sorted.take l | none => sorted }

/-! ### Spec-side definitions for claim C6

The spec describes `tokenize` as splitting "on runs of whitespace". -/

/-- Spec-style word extraction over a separator class `sep`: one word per
maximal run of non-separator characters. -/
def wordsAux (sep : Char → Bool) : List Char → List Char → List String
  | [], cur => if cur.isEmpty then [] else [⟨cur.reverse⟩]
  | c :: rest, cur =>
    if sep c then
      if cur.isEmpty then wordsAux sep rest []
      else ⟨cur.reverse⟩ :: wordsAux sep rest []
    else wordsAux sep rest (c :: cur)

/-- Words separated by runs of space characters (what the code's
`split(/ +/)` amounts to after trimming). -/
def spaceWords (l : List Char) : List String :=
  wordsAux (fun c => c = ' ') l []

/-- Words separated by runs of whitespace — the behaviour claim C6
attributes to `tokenize` ("splits on runs of whitespace"). -/
def whitespaceWords (l : List Char) : List String :=
  wordsAux isJsSpace l []

/-! ### TomSelect: selection state machine -/

/-- The configuration fields of `TomSelect.defaults` that the modelled
operations read. -/
structure TSettings where
  /-- `'single'` or `'multi'` -/
  mode : String
  /-- `null` (no cap) or a cap on the number of selected items -/
  maxItems : Option Nat
  duplicates : Bool
  persist : Bool
  /-- whether `settings.controlInput` is set (truthy) -/
  controlInput : Bool
  /-- whether a `settings.load` function is configured -/
  hasLoad : Bool
deriving Repr, DecidableEq

/-- The modelled mutable state of a TomSelect instance.  `events` logs the
modelled `trigger()` calls (`change`, `item_add`, `item_remove`, `clear`,
`option_remove`, `option_clear`); dropdown/DOM notifications are outside
the model.  `loaderCalls` logs each dispatch to the user-supplied loader. -/
structure TSState where
  settings : TSettings
  /-- the option corpus, insertion ordered (`this.options`) -/
  options : List (String × RecData)
  /-- keys of user-created options (`this.userOptions`) -/
  userOptions : List String
  /-- queries already dispatched to the loader (`this.loadedSearches`) -/
  loadedSearches : List String
  /-- the ordered selection (`this.items`) -/
  items : List String
  caretPos : Nat
  /-- the cached last-query marker (`this.lastQuery`, `null` ↦ `none`) -/
  lastQuery : Option String
  /-- current trimmed text of the control input (`this.inputValue()`) -/
  inputValue : String
  isSetup : Bool
  isPending : Bool
  events : List String
  loaderCalls : List String
deriving Repr, DecidableEq

/-- `trigger(event)` for the modelled events. -/
def tsTrigger (s : TSState) (e : String) : TSState :=
  { s with events := s.events ++ [e] }

/-- `updateOriginalInput(opts)`: rewrites the backing element (DOM) and,
once setup is complete and unless silenced, triggers `change`. -/
def tsUpdateOriginalInput (s : TSState) (silent : Bool) : TSState :=
  if s.isSetup ∧ ¬silent then tsTrigger s "change" else s

/-- `setCaret(i)`: in single mode or with a configured `controlInput` the
caret is pinned to `items.length`; otherwise the argument is clamped to
`[0, items.length]` (the DOM re-ordering of the control's children is
elided). -/
def tsSetCaret (s : TSState) (i : Int) : TSState :=
  let j : Int :=
    if s.settings.mode = "single" ∨ s.settings.controlInput then (s.items.length : Int)
    else max 0 (min (s.items.length : Int) i)
  { s with caretPos := j.toNat }

/-- `isFull()`: `maxItems !== null && items.length >= maxItems`. -/
def tsIsFull (s : TSState) : Bool :=
  match s.settings.maxItems with
  | none => false
  | some m => s.items.length ≥ m

/-- `clear(silent)`: a no-op on an empty selection; otherwise removes every
item, nulls `lastQuery`, resets the caret, refreshes the backing input and
triggers `clear`. -/
def tsClear (s : TSState) (silent : Bool) : TSState :=
  if s.items.isEmpty then s
  else
    let s1 := { s with items := [], lastQuery := none }
    let s2 := tsSetCaret s1 0
    let s3 := tsUpdateOriginalInput s2 silent
    tsTrigger s3 "clear"

/-- `debounce_events(self, types, fn)`: events of a listed type triggered
while `fn` runs are captured (one queued entry per type) and fired once
after it returns; other events fire immediately.  The modelled bodies only
append to the log, so the events added by `fn` are the log's suffix. -/
def debounceEvents (types : List String) (body : TSState → TSState)
    (s : TSState) : TSState :=
  let s1 := body s
  let newEvents := s1.events.drop s.events.length
  { s1 with
    events := s.events ++ newEvents.filter (fun e => !types.contains e)
      ++ types.filter (fun t => newEvents.contains t) }

/-- The body of `addItem` (run under `debounce_events` with `['change']`
unless silent).  `hash_key` is the identity on the model's string keys.
An already-selected key returns early (single mode also closes the
dropdown) unless duplicates are allowed in multi mode; an unregistered key
returns untouched; single mode first clears the selection; a full
multi-select rejects the add; otherwise the key is spliced in at the caret
and `insertAtCaret` advances the caret.  After setup, `refreshOptions`
re-runs `search` on the current input value (storing it as `lastQuery`),
`item_add` fires, and the backing input is refreshed. -/
def tsAddItemBody (value : String) (silent : Bool) (s : TSState) : TSState :=
  if s.items.contains value ∧ (s.settings.mode = "single" ∨ ¬s.settings.duplicates) then
    s
  else if (List.lookup value s.options).isNone then s
  else
    let s1 := if s.settings.mode = "single" then tsClear s silent else s
    if s.settings.mode = "multi" ∧ tsIsFull s1 then s1
    else
      let pos := min s1.caretPos s1.items.length
      let s2 := { s1 with items := s1.items.take pos ++ value :: s1.items.drop pos }
      let c := min s2.caretPos s2.items.length
      let s3 := tsSetCaret s2 ((c : Int) + 1)
      if s3.isSetup then
        let s4 := if ¬s3.isPending then { s3 with lastQuery := some s3.inputValue } else s3
        let s5 := tsTrigger s4 "item_add"
        if ¬s5.isPending then tsUpdateOriginalInput s5 silent else s5
      else s3

/-- `addItem(value, silent)`. -/
def tsAddItem (s : TSState) (value : String) (silent : Bool) : TSState :=
  debounceEvents (if silent then [] else ["change"]) (tsAddItemBody value silent) s

/-- The body of `removeItem(value, silent)`, parameterised by the
`removeOption` it calls for a non-persistent user-created option: a no-op
when no rendered item carries the value; otherwise the first occurrence is
removed, `lastQuery` is nulled, the option is dropped when not persisted,
the caret is decremented when the removed index precedes it, the backing
input refreshes and `item_remove` fires. -/
def tsRemoveItemWith (removeOpt : TSState → String → Bool → TSState)
    (s : TSState) (value : String) (silent : Bool) : TSState :=
  if !s.items.contains value then s
  else
    let i := List.indexOf value s.items
    let s1 := { s with items := s.items.eraseIdx i, lastQuery := none }
    let s2 :=
      if ¬s1.settings.persist ∧ s1.userOptions.contains value then
        removeOpt s1 value silent
      else s1
    let s3 := if i < s2.caretPos then tsSetCaret s2 ((s2.caretPos : Int) - 1) else s2
    let s4 := tsUpdateOriginalInput s3 silent
    tsTrigger s4 "item_remove"

/-- `removeOption(value, silent)`: evicts the key from `userOptions` and
the corpus, nulls `lastQuery`, triggers `option_remove` and removes the
item.  The nested `removeItem` cannot re-enter `removeOption`: this call
just deleted `userOptions[value]`, so its persist/userOptions test fails —
the stub in its place is that dead branch made explicit. -/
def tsRemoveOption (s : TSState) (value : String) (silent : Bool) : TSState :=
  let s1 := { s with
    userOptions := s.userOptions.filter (fun k => k != value)
    options := s.options.filter (fun kv => kv.1 != value)
    lastQuery := none }
  let s2 := tsTrigger s1 "option_remove"
  tsRemoveItemWith (fun t _ _ => t) s2 value silent

/-- `removeItem(value, silent)`. -/
def tsRemoveItem (s : TSState) (value : String) (silent : Bool) : TSState :=
  tsRemoveItemWith tsRemoveOption s value silent

/-- `clearOptions()`: resets the loaded-queries set and the user-created
markers, drops every corpus entry whose key is not currently selected
(keeping insertion order), nulls `lastQuery` and triggers `option_clear`.
The selection itself is untouched. -/
def tsClearOptions (s : TSState) : TSState :=
  let s1 := { s with loadedSearches := [], userOptions := [] }
  let selected := s1.options.filter (fun kv => s1.items.contains kv.1)
  let s2 := { s1 with options := selected, lastQuery := none }
  tsTrigger s2 "option_clear"

/-- `onSearchChange(value)`: nothing without a configured loader; a query
already in `loadedSearches` is never redispatched; otherwise the query is
recorded and the loader invoked (via `load()`, which calls it with a
completion callback — modelled as appending to the dispatch log). -/
def tsOnSearchChange (s : TSState) (value : String) : TSState :=
  if ¬s.settings.hasLoad then s
  else if s.loadedSearches.contains value then s
  else
    { s with
      loadedSearches := s.loadedSearches ++ [value]
      loaderCalls := s.loaderCalls ++ [value] }

/-- One user-level mutation of the selection state, for stating invariants
over arbitrary operation sequences. -/
inductive TSOp where
  | addOp (value : String) (silent : Bool)
  | removeOp (value : String) (silent : Bool)
  | clearAll (silent : Bool)
  | caretOp (i : Int)

/-- Applies one operation. -/
def tsApply (s : TSState) : TSOp → TSState
  | .addOp v b => tsAddItem s v b
  | .removeOp v b => tsRemoveItem s v b
  | .clearAll b => tsClear s b
  | .caretOp i => tsSetCaret s i

/-- Applies a sequence of operations in order. -/
def tsRun (s : TSState) (ops : List TSOp) : TSState :=
  ops.foldl tsApply s

/-! ### Concrete fixtures for witnesses and counterexamples -/

/-- Default-leaning search options: `searchField: ['text']`,
`searchConjunction: 'and'`, no sort/limit overrides. -/
def demoOpts : SearchOptions :=
  { fields := ["text"], conjunction := "and", sort := none, sort_empty := none,
    nesting := false, filter := true, limit := none, score := none }

/-- A small corpus. -/
def demoCorpus : List (String × RecData) :=
  [("a", [("text", "Apple")]), ("b", [("text", "Banana")])]

/-- A multi-select configuration. -/
def demoSettings : TSettings :=
  { mode := "multi", maxItems := none, duplicates := false, persist := true,
    controlInput := false, hasLoad := true }

/-- A single-select configuration (`mode: 'single'`, `maxItems: 1`). -/
def demoSingleSettings : TSettings :=
  { mode := "single", maxItems := some 1, duplicates := false, persist := true,
    controlInput := false, hasLoad := false }

/-- A single record, as stored in the option corpus. -/
def demoRec : RecData := [("text", "Apple")]

/-- A widget state mid-session: "a" selected, "x" cached as the last query. -/
def demoState : TSState :=
  { settings := demoSettings, options := demoCorpus, userOptions := [],
    loadedSearches := [], items := ["a"], caretPos := 1, lastQuery := some "x",
    inputValue := "", isSetup := false, isPending := false, events := [],
    loaderCalls := [] }

/-- A fresh single-select widget state. -/
def demoSingleState : TSState :=
  { settings := demoSingleSettings, options := demoCorpus, userOptions := [],
    loadedSearches := [], items := [], caretPos := 0, lastQuery := none,
    inputValue := "", isSetup := false, isPending := false, events := [],
    loaderCalls := [] }

/-! ## Theorems -/

/-! ### Projection helper lemmas -/

@[simp] theorem tsTrigger_settings (s : TSState) (e : String) :
    (tsTrigger s e).settings = s.settings := rfl

@[simp] theorem tsTrigger_items (s : TSState) (e : String) :
    (tsTrigger s e).items = s.items := rfl

@[simp] theorem tsTrigger_caretPos (s : TSState) (e : String) :
    (tsTrigger s e).caretPos = s.caretPos := rfl

@[simp] theorem tsTrigger_lastQuery (s : TSState) (e : String) :
    (tsTrigger s e).lastQuery = s.lastQuery := rfl

@[simp] theorem tsTrigger_options (s : TSState) (e : String) :
    (tsTrigger s e).options = s.options := rfl

@[simp] theorem tsTrigger_userOptions (s : TSState) (e : String) :
    (tsTrigger s e).userOptions = s.userOptions := rfl

@[simp] theorem tsTrigger_loadedSearches (s : TSState) (e : String) :
    (tsTrigger s e).loadedSearches = s.loadedSearches := rfl

@[simp] theorem tsUOI_settings (s : TSState) (b : Bool) :
    (tsUpdateOriginalInput s b).settings = s.settings := by
  unfold tsUpdateOriginalInput; split <;> rfl

@[simp] theorem tsUOI_items (s : TSState) (b : Bool) :
    (tsUpdateOriginalInput s b).items = s.items := by
  unfold tsUpdateOriginalInput; split <;> rfl

@[simp] theorem tsUOI_caretPos (s : TSState) (b : Bool) :
    (tsUpdateOriginalInput s b).caretPos = s.caretPos := by
  unfold tsUpdateOriginalInput; split <;> rfl

@[simp] theorem tsUOI_lastQuery (s : TSState) (b : Bool) :
    (tsUpdateOriginalInput s b).lastQuery = s.lastQuery := by
  unfold tsUpdateOriginalInput; split <;> rfl

@[simp] theorem tsUOI_options (s : TSState) (b : Bool) :
    (tsUpdateOriginalInput s b).options = s.options := by
  unfold tsUpdateOriginalInput; split <;> rfl

@[simp] theorem tsUOI_userOptions (s : TSState) (b : Bool) :
    (tsUpdateOriginalInput s b).userOptions = s.userOptions := by
  unfold tsUpdateOriginalInput; split <;> rfl

@[simp] theorem tsUOI_loadedSearches (s : TSState) (b : Bool) :
    (tsUpdateOriginalInput s b).loadedSearches = s.loadedSearches := by
  unfold tsUpdateOriginalInput; split <;> rfl

@[simp] theorem tsSetCaret_settings (s : TSState) (i : Int) :
    (tsSetCaret s i).settings = s.settings := rfl

@[simp] theorem tsSetCaret_items (s : TSState) (i : Int) :
    (tsSetCaret s i).items = s.items := rfl

@[simp] theorem tsSetCaret_lastQuery (s : TSState) (i : Int) :
    (tsSetCaret s i).lastQuery = s.lastQuery := rfl

@[simp] theorem tsSetCaret_options (s : TSState) (i : Int) :
    (tsSetCaret s i).options = s.options := rfl

@[simp] theorem tsSetCaret_userOptions (s : TSState) (i : Int) :
    (tsSetCaret s i).userOptions = s.userOptions := rfl

@[simp] theorem tsSetCaret_loadedSearches (s : TSState) (i : Int) :
    (tsSetCaret s i).loadedSearches = s.loadedSearches := rfl

@[simp] theorem debounceEvents_settings (t : List String) (f : TSState → TSState)
    (s : TSState) : (debounceEvents t f s).settings = (f s).settings := rfl

@[simp] theorem debounceEvents_items (t : List String) (f : TSState → TSState)
    (s : TSState) : (debounceEvents t f s).items = (f s).items := rfl

@[simp] theorem debounceEvents_caretPos (t : List String) (f : TSState → TSState)
    (s : TSState) : (debounceEvents t f s).caretPos = (f s).caretPos := rfl

@[simp] theorem debounceEvents_lastQuery (t : List String) (f : TSState → TSState)
    (s : TSState) : (debounceEvents t f s).lastQuery = (f s).lastQuery := rfl

@[simp] theorem debounceEvents_options (t : List String) (f : TSState → TSState)
    (s : TSState) : (debounceEvents t f s).options = (f s).options := rfl

@[simp] theorem ite_items (c : Prop) [Decidable c] (a b : TSState) :
    (if c then a else b).items = if c then a.items else b.items := by
  split <;> rfl

@[simp] theorem ite_options (c : Prop) [Decidable c] (a b : TSState) :
    (if c then a else b).options = if c then a.options else b.options := by
  split <;> rfl

@[simp] theorem ite_settings (c : Prop) [Decidable c] (a b : TSState) :
    (if c then a else b).settings = if c then a.settings else b.settings := by
  split <;> rfl

@[simp] theorem ite_caretPos (c : Prop) [Decidable c] (a b : TSState) :
    (if c then a else b).caretPos = if c then a.caretPos else b.caretPos := by
  split <;> rfl

@[simp] theorem ite_lastQuery (c : Prop) [Decidable c] (a b : TSState) :
    (if c then a else b).lastQuery = if c then a.lastQuery else b.lastQuery := by
  split <;> rfl

/-- The caret set by `setCaret` never exceeds the item count. -/
theorem tsSetCaret_caretPos_le (s : TSState) (i : Int) :
    (tsSetCaret s i).caretPos ≤ s.items.length := by
  unfold tsSetCaret
  split
  · simp
  · simp only [Int.toNat_le]
    exact max_le (by positivity) (min_le_left _ _)

/-- Clearing always leaves an empty selection. -/
theorem tsClear_items (s : TSState) (b : Bool) : (tsClear s b).items = [] := by
  unfold tsClear
  split
  · simpa [List.isEmpty_iff] using ‹s.items.isEmpty = true›
  · simp

/-- Clearing does not touch the option map. -/
theorem tsClear_options (s : TSState) (b : Bool) : (tsClear s b).options = s.options := by
  unfold tsClear
  split <;> simp

/-- Clearing does not touch the settings. -/
theorem tsClear_settings (s : TSState) (b : Bool) : (tsClear s b).settings = s.settings := by
  unfold tsClear
  split <;> simp

/-- The caret invariant: the caret never exceeds the number of selected
items (`0 <= caretPos` holds by the ℕ representation). -/
def caretInv (s : TSState) : Prop :=
  s.caretPos ≤ s.items.length

/-- Clearing preserves the caret invariant. -/
theorem tsClear_inv (s : TSState) (b : Bool) (h : caretInv s) : caretInv (tsClear s b) := by
  unfold tsClear
  split
  · exact h
  · unfold caretInv
    simp only [tsTrigger_items, tsUOI_items, tsSetCaret_items, tsTrigger_caretPos,
      tsUOI_caretPos]
    exact tsSetCaret_caretPos_le _ 0

/-- When the body changes nothing, the debounced operation changes
nothing. -/
theorem debounceEvents_id (t : List String) (f : TSState → TSState) (s : TSState)
    (h : f s = s) : debounceEvents t f s = s := by
  unfold debounceEvents
  rw [h]
  simp [List.drop_length]

/-- An unregistered key makes `addItem` a complete no-op. -/
theorem tsAddItem_of_lookup_none (s : TSState) (v : String) (b : Bool)
    (h : List.lookup v s.options = none) : tsAddItem s v b = s := by
  refine debounceEvents_id _ _ _ ?_
  unfold tsAddItemBody
  split
  · rfl
  · rw [if_pos (by simp [h])]

/-- In single mode, adding an already-selected key is a complete no-op
(the dropdown close has no modelled effect). -/
theorem tsAddItem_of_mem_single (s : TSState) (v : String) (b : Bool)
    (hm : s.settings.mode = "single") (hv : v ∈ s.items) : tsAddItem s v b = s := by
  refine debounceEvents_id _ _ _ ?_
  unfold tsAddItemBody
  rw [if_pos ⟨by simpa using hv, Or.inl hm⟩]

/-- In single mode, adding a fresh registered key leaves exactly that key
selected, with the options and settings untouched and the caret at 1. -/
theorem tsAddItem_single_new (s : TSState) (v : String) (b : Bool)
    (hm : s.settings.mode = "single") (ho : (List.lookup v s.options).isSome)
    (hv : v ∉ s.items) :
    (tsAddItem s v b).items = [v] ∧ (tsAddItem s v b).options = s.options ∧
    (tsAddItem s v b).settings = s.settings := by
  obtain ⟨w, hw⟩ := Option.isSome_iff_exists.mp ho
  unfold tsAddItem
  simp only [debounceEvents_items, debounceEvents_options, debounceEvents_settings]
  unfold tsAddItemBody
  rw [if_neg (by simp [hv]), hw, if_neg (by simp), if_pos hm,
    if_neg (by simp [tsClear_settings, hm])]
  refine ⟨?_, ?_, ?_⟩ <;>
    simp [tsClear_items, tsClear_options, tsClear_settings, tsSetCaret,
      tsUpdateOriginalInput, tsTrigger]

/-- `addItem` never modifies the option map. -/
theorem tsAddItem_options (s : TSState) (v : String) (b : Bool) :
    (tsAddItem s v b).options = s.options := by
  unfold tsAddItem
  simp only [debounceEvents_options]
  unfold tsAddItemBody
  simp [tsClear_options, tsSetCaret, tsUpdateOriginalInput, tsTrigger]

/-- `addItem` never modifies the settings. -/
theorem tsAddItem_settings (s : TSState) (v : String) (b : Bool) :
    (tsAddItem s v b).settings = s.settings := by
  unfold tsAddItem
  simp only [debounceEvents_settings]
  unfold tsAddItemBody
  simp [tsClear_settings, tsSetCaret, tsUpdateOriginalInput, tsTrigger]

/-- The caret invariant transfers through the debounce wrapper. -/
theorem caretInv_debounce (t : List String) (f : TSState → TSState) (s : TSState) :
    caretInv (debounceEvents t f s) ↔ caretInv (f s) := by
  unfold caretInv
  simp

/-- `setCaret` establishes the caret invariant unconditionally. -/
theorem tsSetCaret_inv (s : TSState) (i : Int) : caretInv (tsSetCaret s i) := by
  unfold caretInv
  rw [tsSetCaret_items]
  exact tsSetCaret_caretPos_le s i

/-- `addItem` preserves the caret invariant. -/
theorem tsAddItem_inv (s : TSState) (v : String) (b : Bool) (h : caretInv s) :
    caretInv (tsAddItem s v b) := by
  unfold tsAddItem
  rw [caretInv_debounce]
  unfold tsAddItemBody
  split
  · exact h
  · split
    · exact h
    · dsimp only
      split
      · split
        · exact tsClear_inv s b h
        · unfold caretInv
          simp only [ite_items, ite_caretPos, tsTrigger_items, tsTrigger_caretPos,
            tsUOI_items, tsUOI_caretPos]
          simp only [ite_self]
          exact tsSetCaret_inv _ _
      · split
        · exact h
        · unfold caretInv
          simp only [ite_items, ite_caretPos, tsTrigger_items, tsTrigger_caretPos,
            tsUOI_items, tsUOI_caretPos]
          simp only [ite_self]
          exact tsSetCaret_inv _ _

/-- The `removeItem` body with the dead `removeOption` recursion stubbed
out: establishes the caret invariant when it removes, and is the identity
otherwise. -/
theorem tsRemoveItemStub_inv (s : TSState) (v : String) (b : Bool) :
    (v ∈ s.items → caretInv (tsRemoveItemWith (fun t _ _ => t) s v b)) ∧
    (v ∉ s.items → tsRemoveItemWith (fun t _ _ => t) s v b = s) := by
  constructor
  · intro hv
    have hi : List.indexOf v s.items < s.items.length := List.indexOf_lt_length.mpr hv
    unfold tsRemoveItemWith
    rw [if_neg (by simpa using hv)]
    unfold caretInv
    simp only [tsTrigger_items, tsTrigger_caretPos, tsUOI_items, tsUOI_caretPos, ite_self]
    split
    · exact tsSetCaret_inv _ _
    · next hnotlt =>
      simp only [List.length_eraseIdx, if_pos hi] at *
      omega
  · intro hv
    unfold tsRemoveItemWith
    rw [if_pos (by simpa using hv)]

/-- `removeOption` establishes the caret invariant when the key was
selected and does not move caret or items otherwise. -/
theorem tsRemoveOption_css (s : TSState) (v : String) (b : Bool) :
    (v ∈ s.items → caretInv (tsRemoveOption s v b)) ∧
    (v ∉ s.items → (tsRemoveOption s v b).items = s.items ∧
      (tsRemoveOption s v b).caretPos = s.caretPos) := by
  have key : ∀ t : TSState, v ∉ t.items →
      tsRemoveItemWith (fun x _ _ => x) t v b = t :=
    fun t ht => (tsRemoveItemStub_inv t v b).2 ht
  unfold tsRemoveOption
  constructor
  · intro hv
    exact (tsRemoveItemStub_inv _ v b).1 hv
  · intro hv
    dsimp only
    rw [key _ (by exact hv)]
    exact ⟨rfl, rfl⟩

/-- `removeItem` preserves the caret invariant. -/
theorem tsRemoveItem_inv (s : TSState) (v : String) (b : Bool) (h : caretInv s) :
    caretInv (tsRemoveItem s v b) := by
  by_cases hv : v ∈ s.items
  · have hi : List.indexOf v s.items < s.items.length := List.indexOf_lt_length.mpr hv
    unfold tsRemoveItem tsRemoveItemWith
    rw [if_neg (by simpa using hv)]
    unfold caretInv
    simp only [tsTrigger_items, tsTrigger_caretPos, tsUOI_items, tsUOI_caretPos]
    split
    · split
      · exact tsSetCaret_inv _ _
      · next hnotlt =>
        by_cases hmem : v ∈ List.eraseIdx s.items (List.indexOf v s.items)
        · exact (tsRemoveOption_css _ v b).1 (by exact hmem)
        · obtain ⟨hitems, hcaret⟩ := (tsRemoveOption_css
            { s with items := s.items.eraseIdx (List.indexOf v s.items),
                     lastQuery := none } v b).2 (by exact hmem)
          rw [hitems, hcaret]
          rw [hcaret] at hnotlt
          dsimp only at *
          simp only [List.length_eraseIdx, if_pos hi] at *
          omega
    · split
      · exact tsSetCaret_inv _ _
      · next hnotlt =>
        simp only [List.length_eraseIdx, if_pos hi] at *
        omega
  · unfold tsRemoveItem tsRemoveItemWith
    rw [if_pos (by simpa using hv)]
    exact h

/-- Every single modelled operation preserves the caret invariant. -/
theorem caret_inv_ops (s : TSState) (op : TSOp) (h : caretInv s) :
    caretInv (tsApply s op) := by
  cases op with
  | addOp v b => exact tsAddItem_inv s v b h
  | removeOp v b => exact tsRemoveItem_inv s v b h
  | clearAll b => exact tsClear_inv s b h
  | caretOp i => exact tsSetCaret_inv s i

/-! ### Claim C5 -/

/-- C5: after any sequence of `addItem`, `removeItem`, `clear` and
`setCaret` operations from a state whose caret is in bounds, the caret
still satisfies `0 ≤ caretPos ≤ items.length` (the lower bound is the ℕ
representation; `setCaret` clamps, insertion re-sets the caret past the
inserted item, removal before the caret decrements it through the clamping
`setCaret`). -/
theorem caret_invariant_sequences (s : TSState) (ops : List TSOp) (h : caretInv s) :
    (tsRun s ops).caretPos ≤ (tsRun s ops).items.length := by
  induction ops generalizing s with
  | nil => exact h
  | cons op rest ih =>
    rw [tsRun, List.foldl_cons]
    exact ih (tsApply s op) (caret_inv_ops s op h)

/-- Witness for C5: a concrete add/set-caret/remove/clear sequence. -/
theorem caret_invariant_sequences_witness :
    (tsRun demoState [TSOp.addOp "b" false, TSOp.caretOp 5, TSOp.removeOp "a" false,
      TSOp.clearAll false]).caretPos ≤
    (tsRun demoState [TSOp.addOp "b" false, TSOp.caretOp 5, TSOp.removeOp "a" false,
      TSOp.clearAll false]).items.length :=
  caret_invariant_sequences demoState
    [TSOp.addOp "b" false, TSOp.caretOp 5, TSOp.removeOp "a" false,
      TSOp.clearAll false] (by unfold caretInv; decide)

/-- Looking a selected key up in the options filtered down to the selected
keys gives the same answer as in the unfiltered options. -/
theorem lookup_filter_of_mem (l : List (String × RecData)) (keys : List String)
    (k : String) (hk : k ∈ keys) :
    List.lookup k (l.filter (fun kv => keys.contains kv.1)) = List.lookup k l := by
  induction l with
  | nil => rfl
  | cons p rest ih =>
    rcases p with ⟨k', v⟩
    rw [List.filter_cons]
    by_cases hkk : k = k'
    · subst hkk
      rw [if_pos (by simpa using hk)]
      simp [List.lookup_cons]
    · have hbeq : (k == k') = false := by simpa using hkk
      by_cases hp : k' ∈ keys
      · rw [if_pos (by simpa using hp)]
        simp only [List.lookup_cons, hbeq]
        simpa using ih
      · rw [if_neg (by simpa using hp)]
        simp only [List.lookup_cons, hbeq]
        simpa using ih

/-- Membership in the filtered option list: present iff selected and
present before. -/
theorem lookup_filter_isSome (l : List (String × RecData)) (keys : List String)
    (k : String) :
    (List.lookup k (l.filter (fun kv => keys.contains kv.1))).isSome ↔
      k ∈ keys ∧ (List.lookup k l).isSome := by
  induction l with
  | nil => simp
  | cons p rest ih =>
    rcases p with ⟨k', v⟩
    rw [List.filter_cons]
    by_cases hkk : k = k'
    · subst hkk
      by_cases hp : k ∈ keys
      · rw [if_pos (by simpa using hp)]
        simp [List.lookup_cons, hp]
      · rw [if_neg (by simpa using hp)]
        simp [List.lookup_cons, hp, ih]
    · have hbeq : (k == k') = false := by simpa using hkk
      by_cases hp : k' ∈ keys
      · rw [if_pos (by simpa using hp)]
        simp [List.lookup_cons, hbeq, and_comm]
      · rw [if_neg (by simpa using hp)]
        simp [List.lookup_cons, hbeq, and_comm]

/-! ### Sifter helper lemmas -/

/-- When every record scores ≤ 0 on the scoring path (non-empty lowercased
query) and filtering is on, the search returns no items. -/
theorem sifterSearch_scored_path_nil (corpus : List (String × RecData)) (q : String)
    (opts : SearchOptions) (hq : jsToLower q ≠ "") (hfil : opts.filter = true)
    (hz : ∀ p ∈ corpus,
      (match opts.score with
       | some f => f
       | none => getScoreFunction (tokenize q) opts) p.2 ≤ 0) :
    (sifterSearch corpus q opts).items = [] ∧ (sifterSearch corpus q opts).total = 0 := by
  unfold sifterSearch
  dsimp only
  rw [if_pos hq]
  have hbase : corpus.filterMap (fun p =>
      let sc := (match opts.score with
        | some f => f
        | none => getScoreFunction (tokenize q) opts) p.2
      if !opts.filter || decide (sc > 0) then some { id := p.1, score := sc }
      else none) = ([] : List ResultItem) := by
    rw [List.filterMap_eq_nil_iff]
    intro p hp
    dsimp only
    rw [if_neg]
    simp [hfil, not_lt.mpr (hz p hp)]
  rw [hbase]
  rcases hgs : getSortFunction corpus (jsToLower q) opts with _ | c <;>
    dsimp only <;> simp [List.mergeSort_nil] <;> cases opts.limit <;> rfl

/-- The empty-query search result, up to the stable sort: a permutation of
the corpus with every score 1, and total the corpus size. -/
theorem sifterSearch_empty_core (corpus : List (String × RecData)) (opts : SearchOptions)
    (hlim : opts.limit = none) :
    ((sifterSearch corpus "" opts).items).Perm
      (corpus.map (fun p => ({ id := p.1, score := 1 } : ResultItem))) ∧
    (sifterSearch corpus "" opts).total = corpus.length := by
  unfold sifterSearch
  dsimp only
  rw [show jsToLower "" = "" from by decide]
  rw [if_neg (by simp), hlim]
  rcases hgs : getSortFunction corpus "" opts with _ | c <;> dsimp only
  · exact ⟨List.Perm.refl _, by simp⟩
  · refine ⟨List.mergeSort_perm _ _, ?_⟩
    simp [List.length_mergeSort]

/-- `removeFirstScoreKey` is the identity on a key list without `$score`
(the empty-query splice in `getSortFunction` is dead code: the filter just
before it already dropped every `$score` key). -/
theorem removeFirstScoreKey_of_none (l : List SortKey)
    (h : ∀ k ∈ l, k.field ≠ "$score") : removeFirstScoreKey l = l := by
  induction l with
  | nil => rfl
  | cons k rest ih =>
    unfold removeFirstScoreKey
    rw [if_neg (h k (by simp))]
    rw [ih (fun x hx => h x (by simp [hx]))]

/-! ### Claim C1 -/

/-- Counterexample to C1: a whitespace-only query is not treated like the
empty query.  `prepareSearch` lowercases but does not trim, so `" "` has
nonzero length and takes the scoring path with zero tokens; every record
scores 0 and (with filtering on) the result is empty — not "every corpus
record with score 1 and total equal to corpus size" (here the corpus has 2
records and the result has none, total 0). -/
theorem sifterSearch_whitespace_query_empty_result :
    (sifterSearch demoCorpus " " demoOpts).items = [] ∧
    (sifterSearch demoCorpus " " demoOpts).total = 0 ∧
    demoCorpus.length = 2 := by
  obtain ⟨h1, h2⟩ := sifterSearch_scored_path_nil demoCorpus " " demoOpts
    (by decide) (by decide) (by decide)
  exact ⟨h1, h2, by decide⟩

/-- C1 (amended): for every corpus, searching with the genuinely empty
query (`""`) and no result limit returns every corpus record (as a
permutation when a sort applies), each with score exactly 1, with total
equal to the corpus size — no filtering on this path.  Whitespace-only but
non-empty queries instead take the scoring path with an empty token list
and return nothing. -/
theorem sifterSearch_empty_query_returns_all (corpus : List (String × RecData))
    (opts : SearchOptions) (hlim : opts.limit = none) :
    ((sifterSearch corpus "" opts).items.map ResultItem.id).Perm (corpus.map Prod.fst) ∧
    (∀ it ∈ (sifterSearch corpus "" opts).items, it.score = 1) ∧
    (sifterSearch corpus "" opts).total = corpus.length := by
  obtain ⟨hperm, htot⟩ := sifterSearch_empty_core corpus opts hlim
  refine ⟨?_, ?_, htot⟩
  · have h := hperm.map ResultItem.id
    simpa [List.map_map, Function.comp] using h
  · intro it hit
    have hmem := hperm.mem_iff.mp hit
    obtain ⟨p, _, rfl⟩ := List.mem_map.mp hmem
    rfl

/-- Witness for C1 (amended) at a concrete two-record corpus. -/
theorem sifterSearch_empty_query_returns_all_witness :
    ((sifterSearch demoCorpus "" demoOpts).items.map ResultItem.id).Perm
      (demoCorpus.map Prod.fst) ∧
    (∀ it ∈ (sifterSearch demoCorpus "" demoOpts).items, it.score = 1) ∧
    (sifterSearch demoCorpus "" demoOpts).total = demoCorpus.length :=
  sifterSearch_empty_query_returns_all demoCorpus demoOpts rfl

/-! ### Claim C7 -/

/-- C7: the sort-key list uses a single implicit `$score desc` key
prepended when the query is non-empty and no explicit key names `$score`;
for an empty query every `$score` key is dropped from the applicable
explicit list and no implicit key is added; an empty key list makes
`getSortFunction` return `none`, and the search then keeps the corpus
iteration order (shown for the empty-query path, where every record is
included). -/
theorem getSortFunction_key_selection_spec :
    (∀ (query : String) (opts : SearchOptions), query ≠ "" →
      (∀ k ∈ opts.sort.getD [], k.field ≠ "$score") →
      sortFieldList query opts =
        { field := "$score", direction := "desc" } :: opts.sort.getD []) ∧
    (∀ (query : String) (opts : SearchOptions), query = "" →
      sortFieldList query opts =
        ((if opts.sort_empty.isSome then opts.sort_empty.getD []
          else opts.sort.getD []).filter (fun k => k.field != "$score"))) ∧
    (∀ (corpus : List (String × RecData)) (query : String) (opts : SearchOptions),
      sortFieldList query opts = [] → getSortFunction corpus query opts = none) ∧
    (∀ (corpus : List (String × RecData)) (q : String) (opts : SearchOptions),
      jsToLower q = "" → sortFieldList "" opts = [] → opts.limit = none →
      (sifterSearch corpus q opts).items =
        corpus.map (fun p => ({ id := p.1, score := 1 } : ResultItem))) := by
  refine ⟨?_, ?_, ?_, ?_⟩
  · intro query opts hq hns
    unfold sortFieldList
    dsimp only
    rw [if_pos hq,
      show (if query = "" ∧ opts.sort_empty.isSome = true then opts.sort_empty
        else opts.sort) = opts.sort from if_neg (by simp [hq])]
    have hfilter : (opts.sort.getD []).filter
        (fun k => query != "" || k.field != "$score") = opts.sort.getD [] := by
      apply List.filter_eq_self.mpr
      intro k _
      simp [hq]
    rw [hfilter, if_pos]
    rw [List.all_eq_true]
    intro k hk
    simpa using hns k hk
  · intro query opts hq
    subst hq
    unfold sortFieldList
    dsimp only
    have hfil : ∀ l : List SortKey,
        l.filter (fun k => ("" != "") || k.field != "$score") =
        l.filter (fun k => k.field != "$score") := by
      intro l
      apply List.filter_congr
      intro k _
      simp
    rw [if_neg (by simp)]
    by_cases hse : opts.sort_empty.isSome
    · rw [if_pos ⟨rfl, hse⟩, hfil, if_pos hse]
      apply removeFirstScoreKey_of_none
      intro k hk
      simpa using (List.mem_filter.mp hk).2
    · rw [if_neg (by simp [hse]), hfil, if_neg (by simp [hse])]
      apply removeFirstScoreKey_of_none
      intro k hk
      simpa using (List.mem_filter.mp hk).2
  · intro corpus query opts h
    unfold getSortFunction
    dsimp only
    rw [h]
    rfl
  · intro corpus q opts htl hsf hlim
    have hnone : getSortFunction corpus "" opts = none := by
      unfold getSortFunction
      dsimp only
      rw [hsf]
      rfl
    unfold sifterSearch
    dsimp only
    rw [htl, if_neg (by simp), hlim, hnone]

/-- Witness for C7: concrete key lists — implicit `$score desc` for query
"ap" with no explicit sort; empty key list for the empty query with an
explicit `$score` sort, making the sorter `none` and preserving corpus
order. -/
theorem getSortFunction_key_selection_spec_witness :
    sortFieldList "ap" demoOpts = [{ field := "$score", direction := "desc" }] ∧
    sortFieldList ""
      { demoOpts with sort := some [{ field := "$score", direction := "desc" }] } = [] ∧
    getSortFunction demoCorpus ""
      { demoOpts with sort := some [{ field := "$score", direction := "desc" }] } = none ∧
    (sifterSearch demoCorpus "" demoOpts).items =
      demoCorpus.map (fun p => ({ id := p.1, score := 1 } : ResultItem)) :=
  ⟨getSortFunction_key_selection_spec.1 "ap" demoOpts (by decide)
      (by intro k hk; simp [demoOpts] at hk),
   getSortFunction_key_selection_spec.2.1 ""
      { demoOpts with sort := some [{ field := "$score", direction := "desc" }] } rfl,
   getSortFunction_key_selection_spec.2.2.1 demoCorpus ""
      { demoOpts with sort := some [{ field := "$score", direction := "desc" }] }
      (by decide),
   getSortFunction_key_selection_spec.2.2.2 demoCorpus "" demoOpts (by decide)
      (by decide) rfl⟩

/-! ### Claim C4 -/

/-- C4: in single-select mode the selection never grows beyond one item,
and adding two different registered values in sequence leaves exactly the
second one selected. -/
theorem single_mode_selection_exclusive :
    (∀ (s : TSState) (v : String) (b : Bool), s.settings.mode = "single" →
      s.items.length ≤ 1 → (tsAddItem s v b).items.length ≤ 1) ∧
    (∀ (s : TSState) (v1 v2 : String) (b : Bool), s.settings.mode = "single" →
      s.items.length ≤ 1 →
      (List.lookup v1 s.options).isSome → (List.lookup v2 s.options).isSome →
      v1 ≠ v2 → (tsAddItem (tsAddItem s v1 b) v2 b).items = [v2]) := by
  constructor
  · intro s v b hm hlen
    by_cases hv : v ∈ s.items
    · rw [tsAddItem_of_mem_single s v b hm hv]
      exact hlen
    · rcases ho : List.lookup v s.options with _ | w
      · rw [tsAddItem_of_lookup_none s v b ho]
        exact hlen
      · rw [(tsAddItem_single_new s v b hm (by simp [ho]) hv).1]
        simp
  · intro s v1 v2 b hm hlen ho1 ho2 hne
    have step2 : ∀ t : TSState, t.settings.mode = "single" →
        (List.lookup v2 t.options).isSome → t.items = [v1] →
        (tsAddItem t v2 b).items = [v2] := by
      intro t htm hto ht
      have hv2 : v2 ∉ t.items := by
        rw [ht]
        simp [Ne.symm hne]
      exact (tsAddItem_single_new t v2 b htm hto hv2).1
    by_cases hv1 : v1 ∈ s.items
    · have hitems : s.items = [v1] := by
        rcases hs : s.items with _ | ⟨x, rest⟩
        · rw [hs] at hv1; simp at hv1
        · rw [hs] at hlen hv1
          rcases rest with _ | ⟨y, rest'⟩
          · have : v1 = x := by simpa using hv1
            rw [this]
          · simp at hlen
      rw [tsAddItem_of_mem_single s v1 b hm hv1]
      exact step2 s hm ho2 hitems
    · obtain ⟨h1, h2, h3⟩ := tsAddItem_single_new s v1 b hm ho1 hv1
      exact step2 (tsAddItem s v1 b) (by rw [h3]; exact hm) (by rw [h2]; exact ho2) h1

/-- Witness for C4 at a fresh single-select state with "a" and "b"
registered. -/
theorem single_mode_selection_exclusive_witness :
    (demoSingleState.settings.mode = "single" → demoSingleState.items.length ≤ 1 →
      (tsAddItem demoSingleState "a" false).items.length ≤ 1) ∧
    (tsAddItem (tsAddItem demoSingleState "a" false) "b" false).items = ["b"] :=
  ⟨fun hm hl => single_mode_selection_exclusive.1 demoSingleState "a" false hm hl,
   single_mode_selection_exclusive.2 demoSingleState "a" "b" false (by decide)
     (by decide) (by decide) (by decide) (by decide)⟩

/-! ### Claim C8 -/

/-- C8: calling `addItem` with a key absent from the option map is a silent
no-op — the entire state (selection, caret, option map, event log) is
unchanged, so in particular no `item_add` and no `change` fires. -/
theorem addItem_unknown_key_noop (s : TSState) (v : String) (silent : Bool)
    (h : List.lookup v s.options = none) : tsAddItem s v silent = s := by
  have hbody : tsAddItemBody v silent s = s := by
    unfold tsAddItemBody
    split
    · rfl
    · rw [if_pos (by simp [h])]
  unfold tsAddItem debounceEvents
  rw [hbody]
  simp [List.drop_length]

/-- Witness for C8 at a concrete state and key. -/
theorem addItem_unknown_key_noop_witness :
    tsAddItem demoState "zzz" false = demoState :=
  addItem_unknown_key_noop demoState "zzz" false (by decide)

/-! ### Claim C9 -/

/-- C9: once a query string has been dispatched to the loader it is
recorded in `loadedSearches` and never redispatched — calling the handler
twice with the same unseen string invokes the loader exactly once, calls
for an already-recorded string are complete no-ops, and only
`clearOptions` empties the loaded-queries set again. -/
theorem onSearchChange_loader_dedup (s : TSState) (v : String) :
    (s.settings.hasLoad → v ∉ s.loadedSearches →
      (tsOnSearchChange s v).loaderCalls = s.loaderCalls ++ [v] ∧
      tsOnSearchChange (tsOnSearchChange s v) v = tsOnSearchChange s v) ∧
    (v ∈ s.loadedSearches → tsOnSearchChange s v = s) ∧
    (tsClearOptions s).loadedSearches = [] := by
  refine ⟨fun hload hnew => ?_, fun hmem => ?_, ?_⟩
  · have h1 : tsOnSearchChange s v =
        { s with loadedSearches := s.loadedSearches ++ [v],
                 loaderCalls := s.loaderCalls ++ [v] } := by
      unfold tsOnSearchChange
      rw [if_neg (by simp [hload]), if_neg (by simp [hnew])]
    refine ⟨by rw [h1], ?_⟩
    rw [h1]
    unfold tsOnSearchChange
    rw [if_neg (by simp [hload]), if_pos (by simp)]
  · unfold tsOnSearchChange
    rcases hl : s.settings.hasLoad with _ | _
    · rw [if_pos (by simp [hl])]
    · rw [if_neg (by simp [hl]), if_pos (by simpa using hmem)]
  · unfold tsClearOptions
    simp

/-- Witness for C9: dispatching "ab" twice from a fresh loaded-queries set
calls the loader exactly once. -/
theorem onSearchChange_loader_dedup_witness :
    (demoState.settings.hasLoad → "ab" ∉ demoState.loadedSearches →
      (tsOnSearchChange demoState "ab").loaderCalls = demoState.loaderCalls ++ ["ab"] ∧
      tsOnSearchChange (tsOnSearchChange demoState "ab") "ab" =
        tsOnSearchChange demoState "ab") ∧
    ("ab" ∈ demoState.loadedSearches → tsOnSearchChange demoState "ab" = demoState) ∧
    (tsClearOptions demoState).loadedSearches = [] :=
  onSearchChange_loader_dedup demoState "ab"

/-! ### Claim C10 -/

/-- C10: `clearOptions` keeps exactly the options whose keys are currently
selected (those survive with their data unchanged, and the selection
itself is untouched), while the loaded-queries set and the user-created
markers are emptied and the cached last-query marker is cleared. -/
theorem clearOptions_keeps_selected (s : TSState) :
    (∀ k, (List.lookup k (tsClearOptions s).options).isSome ↔
      k ∈ s.items ∧ (List.lookup k s.options).isSome) ∧
    (∀ k, k ∈ s.items →
      List.lookup k (tsClearOptions s).options = List.lookup k s.options) ∧
    (tsClearOptions s).items = s.items ∧
    (tsClearOptions s).loadedSearches = [] ∧
    (tsClearOptions s).userOptions = [] ∧
    (tsClearOptions s).lastQuery = none := by
  have hopts : (tsClearOptions s).options =
      s.options.filter (fun kv => s.items.contains kv.1) := by
    unfold tsClearOptions; rfl
  refine ⟨fun k => ?_, fun k hk => ?_, ?_, ?_, ?_, ?_⟩
  · rw [hopts]
    simpa using lookup_filter_isSome s.options s.items k
  · rw [hopts]
    exact lookup_filter_of_mem s.options s.items k hk
  · unfold tsClearOptions; rfl
  · unfold tsClearOptions; rfl
  · unfold tsClearOptions; rfl
  · unfold tsClearOptions; rfl

/-- Witness for C10 at a concrete state. -/
theorem clearOptions_keeps_selected_witness :
    (∀ k, (List.lookup k (tsClearOptions demoState).options).isSome ↔
      k ∈ demoState.items ∧ (List.lookup k demoState.options).isSome) ∧
    (∀ k, k ∈ demoState.items →
      List.lookup k (tsClearOptions demoState).options = List.lookup k demoState.options) ∧
    (tsClearOptions demoState).items = demoState.items ∧
    (tsClearOptions demoState).loadedSearches = [] ∧
    (tsClearOptions demoState).userOptions = [] ∧
    (tsClearOptions demoState).lastQuery = none :=
  clearOptions_keeps_selected demoState

/-! ### Claim C3 -/

/-- Counterexample to C3: in multi mode a completed `addItem` of a fresh,
registered key leaves the cached last-query marker untouched — from a
state whose marker caches "x", `addItem("b")` inserts the item yet the
marker is still `some "x"`, not `null` (only `removeItem`/`clear` null it;
adds rely on `addOption` or the option-click handler for invalidation). -/
theorem addItem_leaves_lastQuery_cached :
    (tsAddItem demoState "b" false).items = ["a", "b"] ∧
    (tsAddItem demoState "b" false).lastQuery = some "x" := by
  constructor <;> rfl

/-- The stub-variant `removeItem` body preserves an already-null
last-query marker. -/
theorem removeItemStub_lastQuery_none (s : TSState) (v : String) (b : Bool)
    (h : s.lastQuery = none) :
    (tsRemoveItemWith (fun t _ _ => t) s v b).lastQuery = none := by
  unfold tsRemoveItemWith
  split
  · exact h
  · simp only [tsTrigger_lastQuery, tsUOI_lastQuery]
    split <;> split <;> simp [tsSetCaret_lastQuery]

/-- `removeOption` always leaves the last-query marker null. -/
theorem removeOption_lastQuery_none (s : TSState) (v : String) (b : Bool) :
    (tsRemoveOption s v b).lastQuery = none := by
  unfold tsRemoveOption
  exact removeItemStub_lastQuery_none _ v b rfl

/-- C3 (amended): every completed `removeItem` that actually removes an
item, and every `clear` of a non-empty selection, leaves the cached
last-query marker null; `addItem` itself does not clear the marker (the
invalidation on the add path is performed by `addOption`, `removeOption`,
`clearOptions` and the dropdown option-click handler instead). -/
theorem removeItem_clear_reset_lastQuery (s : TSState) (v : String) (silent : Bool) :
    (v ∈ s.items → (tsRemoveItem s v silent).lastQuery = none) ∧
    (s.items ≠ [] → (tsClear s silent).lastQuery = none) := by
  constructor
  · intro hv
    unfold tsRemoveItem tsRemoveItemWith
    rw [if_neg (by simpa using hv)]
    simp only [tsTrigger_lastQuery, tsUOI_lastQuery]
    split <;> split <;> (try simp only [tsSetCaret_lastQuery]) <;>
      first
      | exact removeOption_lastQuery_none _ _ _
      | rfl
  · intro hne
    unfold tsClear
    rw [if_neg (by simpa using hne)]
    simp

/-- Witness for C3 (amended) at a concrete state: removing the selected
"a" and clearing the selection both null the cached marker. -/
theorem removeItem_clear_reset_lastQuery_witness :
    ("a" ∈ demoState.items → (tsRemoveItem demoState "a" false).lastQuery = none) ∧
    (demoState.items ≠ [] → (tsClear demoState false).lastQuery = none) :=
  removeItem_clear_reset_lastQuery demoState "a" false

/-! ### Tokenizer helper lemmas (claims C6 and C2) -/

/-- The head surviving `dropWhile p` fails `p`. -/
theorem dropWhile_head_not (p : Char → Bool) (l : List Char) (c : Char)
    (h : (l.dropWhile p).head? = some c) : p c = false := by
  induction l with
  | nil => simp at h
  | cons a rest ih =>
    rw [List.dropWhile_cons] at h
    split at h
    · exact ih h
    · simp at h
      subst h
      simpa using ‹¬p a = true›

/-- `dropWhile` keeps the last element when it keeps anything. -/
theorem dropWhile_getLast?_eq (p : Char → Bool) (l : List Char)
    (h : l.dropWhile p ≠ []) : (l.dropWhile p).getLast? = l.getLast? := by
  induction l with
  | nil => simp at h
  | cons a rest ih =>
    rw [List.dropWhile_cons]
    rw [List.dropWhile_cons] at h
    split at h
    · rw [if_pos ‹_›]
      have hrest : rest ≠ [] := by
        intro hr
        rw [hr] at h
        simp at h
      rw [ih h]
      cases rest with
      | nil => exact absurd rfl hrest
      | cons b bs => rw [List.getLast?_cons_cons]
    · rw [if_neg ‹_›]

/-- The trimmed string does not start with whitespace. -/
theorem jsTrim_head_ok (s : String) (c : Char)
    (h : (jsTrim s).data.head? = some c) : isJsSpace c = false := by
  unfold jsTrim at h
  dsimp only at h
  rw [List.head?_reverse] at h
  have hne : (s.data.dropWhile isJsSpace).reverse.dropWhile isJsSpace ≠ [] := by
    intro hz
    rw [hz] at h
    simp at h
  rw [dropWhile_getLast?_eq _ _ hne, List.getLast?_reverse] at h
  exact dropWhile_head_not _ _ _ h

/-- The trimmed string does not end with whitespace. -/
theorem jsTrim_last_ok (s : String) (c : Char)
    (h : (jsTrim s).data.getLast? = some c) : isJsSpace c = false := by
  unfold jsTrim at h
  dsimp only at h
  rw [List.getLast?_reverse] at h
  exact dropWhile_head_not _ _ _ h

/-- Trimming a whitespace-only string gives the empty string. -/
theorem jsTrim_all_space (s : String) (h : ∀ c ∈ s.data, isJsSpace c = true) :
    jsTrim s = "" := by
  unfold jsTrim
  rw [List.dropWhile_eq_nil_iff.mpr h]
  decide

/-- Lowercasing fixes every whitespace character. -/
theorem toLower_space (c : Char) (h : isJsSpace c = true) : c.toLower = c := by
  simp [isJsSpace] at h
  rcases h with ((((rfl | rfl) | rfl) | rfl) | rfl) | rfl <;> decide

/-- On a chunk without trailing space, the JS `split(/ +/)` recursion and
the maximal-run word recursion agree (joint statement for the two mutual
functions, by strong induction on the length). -/
theorem splitRuns_words_core :
    ∀ (n : Nat) (l : List Char), l.length ≤ n →
      (∀ cur, cur ≠ [] → (∀ c, l.getLast? = some c → c ≠ ' ') →
        splitRunsAux l cur = wordsAux (fun c => c = ' ') l cur) ∧
      (l ≠ [] → (∀ c, l.getLast? = some c → c ≠ ' ') →
        splitRunsGap l = wordsAux (fun c => c = ' ') l []) := by
  intro n
  induction n with
  | zero =>
    intro l hl
    have hnil : l = [] := List.length_eq_zero.mp (Nat.le_zero.mp hl)
    subst hnil
    constructor
    · intro cur hcur _
      simp [splitRunsAux, wordsAux, hcur]
    · intro h
      exact absurd rfl h
  | succ n ih =>
    intro l hl
    cases l with
    | nil =>
      constructor
      · intro cur hcur _
        simp [splitRunsAux, wordsAux, hcur]
      · intro h
        exact absurd rfl h
    | cons c rest =>
      have hrest : rest.length ≤ n := by simpa using hl
      have hlast : rest ≠ [] → (∀ c2, (c :: rest).getLast? = some c2 → c2 ≠ ' ') →
          (∀ c2, rest.getLast? = some c2 → c2 ≠ ' ') := by
        intro hne hall c2 hc2
        apply hall
        cases rest with
        | nil => exact absurd rfl hne
        | cons b bs =>
          rw [List.getLast?_cons_cons]
          exact hc2
      have hlr : (∀ c2, (c :: rest).getLast? = some c2 → c2 ≠ ' ') →
          (∀ c2, rest.getLast? = some c2 → c2 ≠ ' ') := by
        intro hall
        by_cases hre : rest = []
        · subst hre
          intro c2 hc2
          simp at hc2
        · exact hlast hre hall
      constructor
      · intro cur hcur hlastAll
        by_cases hc : c = ' '
        · subst hc
          rw [show splitRunsAux (' ' :: rest) cur = ⟨cur.reverse⟩ :: splitRunsGap rest from
            by simp [splitRunsAux]]
          rw [show wordsAux (fun c => c = ' ') (' ' :: rest) cur =
              ⟨cur.reverse⟩ :: wordsAux (fun c => c = ' ') rest [] from by
            simp [wordsAux, hcur]]
          have hrne : rest ≠ [] := by
            intro hr
            subst hr
            exact (hlastAll ' ' rfl) rfl
          rw [(ih rest hrest).2 hrne (hlast hrne hlastAll)]
        · rw [show splitRunsAux (c :: rest) cur = splitRunsAux rest (c :: cur) from
            by simp [splitRunsAux, hc]]
          rw [show wordsAux (fun c => c = ' ') (c :: rest) cur =
              wordsAux (fun c => c = ' ') rest (c :: cur) from by simp [wordsAux, hc]]
          exact (ih rest hrest).1 (c :: cur) (by simp) (hlr hlastAll)
      · intro _ hlastAll
        by_cases hc : c = ' '
        · subst hc
          rw [show splitRunsGap (' ' :: rest) = splitRunsGap rest from by simp [splitRunsGap]]
          rw [show wordsAux (fun c => c = ' ') (' ' :: rest) [] =
              wordsAux (fun c => c = ' ') rest [] from by simp [wordsAux]]
          have hrne : rest ≠ [] := by
            intro hr
            subst hr
            exact (hlastAll ' ' rfl) rfl
          exact (ih rest hrest).2 hrne (hlast hrne hlastAll)
        · rw [show splitRunsGap (c :: rest) = splitRunsAux rest [c] from
            by simp [splitRunsGap, hc]]
          rw [show wordsAux (fun c => c = ' ') (c :: rest) [] =
              wordsAux (fun c => c = ' ') rest [c] from by simp [wordsAux, hc]]
          exact (ih rest hrest).1 [c] (by simp) (hlr hlastAll)

/-- On a non-empty string with no boundary spaces, JS `split(/ +/)` yields
exactly the maximal runs of non-space characters. -/
theorem splitSpaceRuns_eq_spaceWords (t : String) (hne : t.data ≠ [])
    (hh : ∀ c, t.data.head? = some c → c ≠ ' ')
    (hl : ∀ c, t.data.getLast? = some c → c ≠ ' ') :
    splitSpaceRuns t = spaceWords t.data := by
  unfold splitSpaceRuns spaceWords
  cases hd : t.data with
  | nil => exact absurd hd hne
  | cons c rest =>
    have hc : c ≠ ' ' := hh c (by rw [hd]; rfl)
    rw [show splitRunsAux (c :: rest) [] = splitRunsAux rest [c] from
      by simp [splitRunsAux, hc]]
    rw [show wordsAux (fun c => c = ' ') (c :: rest) [] =
        wordsAux (fun c => c = ' ') rest [c] from by simp [wordsAux, hc]]
    refine (splitRuns_words_core rest.length rest le_rfl).1 [c] (by simp) ?_
    intro c2 hc2
    apply hl
    rw [hd]
    cases rest with
    | nil => simp at hc2
    | cons b bs =>
      rw [List.getLast?_cons_cons]
      exact hc2

/-- Every word produced by the word recursion is non-empty. -/
theorem mem_wordsAux_ne_nil (sep : Char → Bool) :
    ∀ (l cur : List Char) (w : String), w ∈ wordsAux sep l cur → w.data ≠ [] := by
  intro l
  induction l with
  | nil =>
    intro cur w hw
    unfold wordsAux at hw
    split at hw
    · simp at hw
    · simp at hw
      subst hw
      simpa using List.isEmpty_eq_false.mp (by simpa using ‹¬cur.isEmpty = true›)
  | cons c rest ih =>
    intro cur w hw
    unfold wordsAux at hw
    split at hw
    · split at hw
      · exact ih [] w hw
      · rcases List.mem_cons.mp hw with rfl | hw2
        · simpa using List.isEmpty_eq_false.mp (by simpa using ‹¬cur.isEmpty = true›)
        · exact ih [] w hw2
    · exact ih (c :: cur) w hw

/-- The token strings of `tokenize` are exactly the maximal space-free
words of the trimmed, lowercased query. -/
theorem tokenize_words_conn (q : String) :
    (tokenize q).map SifterToken.string = spaceWords (jsTrim (jsToLower q)).data := by
  unfold tokenize
  dsimp only
  by_cases hq : jsTrim (jsToLower q) = ""
  · rw [if_pos hq, hq]
    decide
  · rw [if_neg hq]
    rw [List.map_map]
    have hmm : (SifterToken.string ∘ fun w => ({ string := w } : SifterToken)) = id := rfl
    rw [hmm, List.map_id]
    apply splitSpaceRuns_eq_spaceWords
    · intro hd
      apply hq
      apply String.ext
      rw [hd]
    · intro c hc
      have hns := jsTrim_head_ok (jsToLower q) c hc
      intro hcsp
      rw [hcsp] at hns
      simp [isJsSpace] at hns
    · intro c hc
      have hns := jsTrim_last_ok (jsToLower q) c hc
      intro hcsp
      rw [hcsp] at hns
      simp [isJsSpace] at hns

/-- A token produced by `tokenize` is never the empty word. -/
theorem tokenize_token_ne_empty (q : String) (t : SifterToken) (ht : t ∈ tokenize q) :
    t.string ≠ "" := by
  have hmem : t.string ∈ (tokenize q).map SifterToken.string := List.mem_map_of_mem _ ht
  rw [tokenize_words_conn q] at hmem
  have hne := mem_wordsAux_ne_nil (fun c => c = ' ') _ [] t.string
    (by simpa [spaceWords] using hmem)
  intro h
  rw [h] at hne
  exact hne rfl

/-! ### Claim C6 -/

/-- Counterexample to C6: `tokenize` splits only on runs of SPACE
characters (`split(/ +/)`), not on every whitespace run as the claim says —
the query `"a\tb"` (a tab between two letters) stays a single token, while
splitting on whitespace runs would give the two words the claim requires. -/
theorem tokenize_tab_not_whitespace_split :
    (tokenize "a\tb").map SifterToken.string = ["a\tb"] ∧
    whitespaceWords (jsTrim (jsToLower "a\tb")).data = ["a", "b"] := by
  constructor <;> decide

/-- C6 (amended): `tokenize` lowercases and trims the query and produces
one token per word, where the words are the maximal runs of non-SPACE
characters (the `/ +/` split separates on space runs only, not all
whitespace); empty and whitespace-only queries yield no tokens.  Each
token's match pattern is its text with regex metacharacters escaped,
modelled by the literal matching of `regexSearch`. -/
theorem tokenize_space_words_spec (q : String) :
    ((tokenize q).map SifterToken.string = spaceWords (jsTrim (jsToLower q)).data) ∧
    ((∀ c ∈ q.data, isJsSpace c = true) → tokenize q = []) := by
  refine ⟨tokenize_words_conn q, ?_⟩
  intro hws
  unfold tokenize
  dsimp only
  rw [if_pos]
  apply jsTrim_all_space
  intro c hc
  obtain ⟨c0, hc0, rfl⟩ := List.mem_map.mp (by simpa [jsToLower] using hc)
  rw [toLower_space c0 (hws c0 hc0)]
  exact hws c0 hc0

/-- Witness for C6 (amended) at a whitespace-only query. -/
theorem tokenize_space_words_spec_witness :
    ((tokenize " \t ").map SifterToken.string =
      spaceWords (jsTrim (jsToLower " \t ")).data) ∧
    tokenize " \t " = [] :=
  ⟨(tokenize_space_words_spec " \t ").1,
   (tokenize_space_words_spec " \t ").2 (by decide)⟩

/-! ### Claim C2 -/

/-- A non-empty pattern never matches inside the empty value. -/
theorem regexSearch_empty_value (t : SifterToken) (ht : t.string ≠ "") :
    regexSearch t "" = none := by
  unfold regexSearch searchAux
  rw [show (jsToLower "").data = [] from by decide]
  rw [if_neg]
  intro h
  exact ht (String.ext (by simpa using h))

/-- The per-field, per-token score is non-negative, and zero exactly when
the field value does not contain the token's pattern. -/
theorem scoreValue_zero_iff (t : SifterToken) (ht : t.string ≠ "") (ov : Option String) :
    0 ≤ scoreValue ov t ∧
    (scoreValue ov t = 0 ↔ ∀ v, ov = some v → regexSearch t v = none) := by
  have htlen : 0 < t.string.length := by
    cases hts : t.string.data with
    | nil => exact absurd (String.ext hts) ht
    | cons a l =>
      have hlen : t.string.length = (a :: l).length := by rw [← hts]; rfl
      rw [hlen]
      simp
  cases ov with
  | none =>
    refine ⟨le_refl 0, ?_⟩
    constructor
    · intro _ v hv
      exact absurd hv (by simp)
    · intro _
      rfl
  | some v =>
    by_cases hv : v = ""
    · subst hv
      refine ⟨le_refl 0, ?_⟩
      constructor
      · intro _ v' hv'
        obtain rfl : v' = "" := by simpa using hv'.symm
        exact regexSearch_empty_value t ht
      · intro _
        rfl
    · have hvlen : 0 < v.length := by
        cases hvs : v.data with
        | nil => exact absurd (String.ext hvs) hv
        | cons a l =>
          have hlen : v.length = (a :: l).length := by rw [← hvs]; rfl
          rw [hlen]
          simp
      unfold scoreValue
      dsimp only
      rw [if_neg hv]
      cases hr : regexSearch t v with
      | none =>
        refine ⟨le_refl 0, ?_⟩
        constructor
        · intro _ v' hv'
          obtain rfl : v' = v := by simpa using hv'.symm
          exact hr
        · intro _
          rfl
      | some pos =>
        have hqpos : (0 : ℚ) < (t.string.length : ℚ) / (v.length : ℚ) := by
          apply div_pos
          · exact_mod_cast htlen
          · exact_mod_cast hvlen
        have hpos : (0 : ℚ) <
            (if pos = 0 then (t.string.length : ℚ) / (v.length : ℚ) + 1/2
             else (t.string.length : ℚ) / (v.length : ℚ)) := by
          split
          · linarith
          · exact hqpos
        refine ⟨le_of_lt hpos, ?_⟩
        constructor
        · intro h0
          exact absurd h0.symm (ne_of_lt hpos)
        · intro hall
          exact absurd hr (by simp [hall v rfl])

/-- C2: for a single-token query, the built-in record score is 0 exactly
when no configured search field's value contains the token's pattern; and
a field whose value matches at position `p` scores
`tokenLength / valueLength`, plus `0.5` when `p = 0`. -/
theorem getScoreFunction_single_token_spec (Q : String) (t : SifterToken)
    (opts : SearchOptions) (R : RecData) (htok : tokenize Q = [t]) :
    (getScoreFunction (tokenize Q) opts R = 0 ↔
      ∀ f ∈ opts.fields, ∀ v, getattr R f opts.nesting = some v →
        regexSearch t v = none) ∧
    (∀ f ∈ opts.fields, ∀ (v : String) (p : Nat),
      getattr R f opts.nesting = some v → regexSearch t v = some p →
      scoreValue (getattr R f opts.nesting) t =
        (t.string.length : ℚ) / (v.length : ℚ) + (if p = 0 then 1/2 else 0)) := by
  have htne : t.string ≠ "" := tokenize_token_ne_empty Q t (by rw [htok]; simp)
  constructor
  · rw [htok]
    show scoreObject opts.fields opts.nesting t R = 0 ↔ _
    cases hf : opts.fields with
    | nil => simp [scoreObject]
    | cons f1 rest =>
      cases rest with
      | nil =>
        show scoreValue (getattr R f1 opts.nesting) t = 0 ↔ _
        rw [(scoreValue_zero_iff t htne (getattr R f1 opts.nesting)).2]
        constructor
        · intro hall f hfmem v hv
          obtain rfl : f = f1 := by simpa using hfmem
          exact hall v hv
        · intro hall v hv
          exact hall f1 (by simp) v hv
      | cons f2 fs =>
        show ((f1 :: f2 :: fs).map
            (fun f => scoreValue (getattr R f opts.nesting) t)).sum /
            (((f1 :: f2 :: fs).length : ℕ) : ℚ) = 0 ↔ _
        rw [div_eq_zero_iff]
        have hlen : (((f1 :: f2 :: fs).length : ℕ) : ℚ) ≠ 0 := by
          have hcast : (((f1 :: f2 :: fs).length : ℕ) : ℚ) = (fs.length : ℚ) + 2 := by
            push_cast [List.length_cons]
            ring
          rw [hcast]
          positivity
        constructor
        · rintro (hsum | hlen0)
          · intro f hfmem v hv
            have hnn : ∀ x ∈ (f1 :: f2 :: fs).map
                (fun f => scoreValue (getattr R f opts.nesting) t), 0 ≤ x := by
              intro x hx
              obtain ⟨g, _, rfl⟩ := List.mem_map.mp hx
              exact (scoreValue_zero_iff t htne _).1
            have hz := fun x a =>
              List.all_zero_of_le_zero_le_of_sum_eq_zero hnn hsum (a : x ∈ _)
            have hfz := hz (scoreValue (getattr R f opts.nesting) t)
              (List.mem_map_of_mem _ hfmem)
            exact ((scoreValue_zero_iff t htne _).2.mp hfz) v hv
          · exact absurd hlen0 hlen
        · intro hall
          left
          apply List.sum_eq_zero
          intro x hx
          obtain ⟨f, hfmem, rfl⟩ := List.mem_map.mp hx
          exact (scoreValue_zero_iff t htne _).2.mpr (fun v hv => hall f hfmem v hv)
  · intro f hfmem v p hget hsearch
    have hvne : v ≠ "" := by
      intro hveq
      subst hveq
      rw [regexSearch_empty_value t htne] at hsearch
      exact Option.noConfusion hsearch
    unfold scoreValue
    rw [hget]
    dsimp only
    rw [if_neg hvne, hsearch]
    dsimp only
    split
    · rfl
    · rw [add_zero]

/-- Witness for C2 at the query "ap" against the record `{text: "Apple"}`
with the default search fields. -/
theorem getScoreFunction_single_token_spec_witness :
    (getScoreFunction (tokenize "ap") demoOpts demoRec = 0 ↔
      ∀ f ∈ demoOpts.fields, ∀ v, getattr demoRec f demoOpts.nesting = some v →
        regexSearch { string := "ap" } v = none) ∧
    (∀ f ∈ demoOpts.fields, ∀ (v : String) (p : Nat),
      getattr demoRec f demoOpts.nesting = some v →
      regexSearch { string := "ap" } v = some p →
      scoreValue (getattr demoRec f demoOpts.nesting) { string := "ap" } =
        ((SifterToken.string { string := "ap" }).length : ℚ) / (v.length : ℚ) +
          (if p = 0 then 1/2 else 0)) :=
  getScoreFunction_single_token_spec "ap" { string := "ap" } demoOpts demoRec (by decide)

end TomSelectSpec
